import Mathlib

/-!
# Verification of `server.py` (moremaid)

A shallow embedding of the Python HTTP server in `src/python/server.py`:
a `SimpleHTTPRequestHandler` subclass `MarkdownServer` exposing

* `GET /api/files` — JSON file tree of the fixed `samples` root,
* `GET /api/file?path=<p>` — raw contents of one Markdown file,
* `GET /` — rewritten to `/index.html`,
* anything else — generic static-file serving,

plus an `end_headers` override adding `Access-Control-Allow-Origin: *`
to every response.

The filesystem visible to the process is modelled as a finite tree of
directories and text files rooted at the server's working directory
(the model has no symbolic links, so kernel path resolution coincides
with segment-by-segment walking).  Library functions used by the source
(`os.path.join`, `os.path.exists`, `os.path.isdir`, `os.listdir`,
`urllib.parse.urlparse`, `urllib.parse.parse_qs`, text-mode `open`,
`json.dumps`, and the relevant parts of `http.server`) are modelled
following their documented CPython semantics.
-/

set_option autoImplicit false

namespace Moremaid

/-- A node of the filesystem visible to the server process: either a
regular file holding (already UTF-8-decoded) text, or a directory with
named entries.  The process working directory is the root node. -/
inductive FSEntry where
  | file (content : String)
  | dir (entries : List (String × FSEntry))
deriving Repr

/-- Entry names produced by a real filesystem: nonempty, no `/`,
and never the special names `.` or `..`. -/
def goodName (s : String) : Bool :=
  s != "" && s != "." && s != ".." && !(s.data.contains '/')

mutual

/-- Well-formed filesystem: every directory has distinct, good entry
names, recursively. -/
def FSEntry.wf : FSEntry → Bool
  | .file _ => true
  | .dir es => decide ((es.map Prod.fst).Nodup) && wfEntries es

/-- Well-formedness of a directory's entry list. -/
def wfEntries : List (String × FSEntry) → Bool
  | [] => true
  | (name, e) :: rest => goodName name && FSEntry.wf e && wfEntries rest

end

/-- Split a string into the character lists between occurrences of a
separator (`"a/b".split('/') = ["a", "b"]`, `"".split('/') = [""]`). -/
def splitSep (sep : Char) : List Char → List (List Char)
  | [] => [[]]
  | c :: rest =>
    match splitSep sep rest with
    | [] => [[]]
    | g :: gs => if c = sep then [] :: g :: gs else (c :: g) :: gs

/-- Resolve a path, given as `/`-separated segments, against the tree,
as the kernel does in the absence of symlinks: `..` steps to the parent
(staying put at the root), `.` and empty segments stay put, and every
step other than the final answer must start from an existing directory.
`stack` holds the ancestors of `cur` (nearest first). -/
def walkFS (stack : List FSEntry) (cur : FSEntry) : List (List Char) → Option FSEntry
  | [] => some cur
  | seg :: rest =>
    match cur with
    | .file _ => none
    | .dir es =>
      if seg = [] ∨ seg = ['.'] then walkFS stack cur rest
      else if seg = ['.', '.'] then
        match stack with
        | [] => walkFS [] cur rest
        | parent :: t => walkFS t parent rest
      else
        match es.lookup (String.mk seg) with
        | some child => walkFS (cur :: stack) child rest
        | none => none

/-- Resolve a path string against the filesystem rooted at the server's
working directory.  An absolute path (leading `/`) also resolves from
that root: the model's universe is the part of the real filesystem
visible below the working directory. -/
def resolvePath (fs : FSEntry) (p : String) : Option FSEntry :=
  if p = "" then none else walkFS [] fs (splitSep '/' p.data)

/-- `os.path.exists` (no symlinks in the model, so `exists` = resolvable). -/
def os_path_exists (fs : FSEntry) (p : String) : Bool :=
  (resolvePath fs p).isSome

/-- `os.path.isdir`. -/
def os_path_isdir (fs : FSEntry) (p : String) : Bool :=
  match resolvePath fs p with
  | some (.dir _) => true
  | _ => false

/-- Two-argument `posixpath.join`: an absolute second component replaces
the first; otherwise they are joined with `/` unless the first is empty
or already ends in `/`. -/
def os_path_join (a b : String) : String :=
  if b.data.head? = some '/' then b
  else if a = "" ∨ a.data.getLast? = some '/' then a ++ b
  else a ++ "/" ++ b

/-- `str.endswith` on Python strings, via character lists. -/
def str_endswith (s suffix : String) : Bool :=
  suffix.data.isSuffixOf s.data

/-- Universal-newline translation performed by text-mode `open` with
`newline=None` (the source's `open(file_path, 'r', encoding='utf-8')`):
`\r\n` and lone `\r` both become `\n` on read. -/
def translateNewlines : List Char → List Char
  | [] => []
  | '\r' :: '\n' :: rest => '\n' :: translateNewlines rest
  | '\r' :: rest => '\n' :: translateNewlines rest
  | c :: rest => c :: translateNewlines rest

/-- What `f.read()` returns for a text file opened with mode `'r'`,
`encoding='utf-8'`: the decoded contents with universal newlines. -/
def read_text (content : String) : String :=
  String.mk (translateNewlines content.data)

/-- The JSON value shape of the file tree the server builds: a Python
dict whose values are either `True` (Markdown file leaf) or a nested
dict (subdirectory).  Entry order is insertion order, as for a Python
dict. -/
inductive FileTree where
  | leaf
  | node (entries : List (String × FileTree))
deriving Repr

/-! ### `MarkdownServer.build_file_tree`

The loop body over the entries of one directory, in listing order:

    for item in os.listdir(root_dir):
        item_path = os.path.join(root_dir, item)
        if os.path.isdir(item_path):
            tree[item] = self.build_file_tree(item_path)
        elif item.endswith('.md'):
            tree[item] = True

Since the model has no symlinks and entry names are good, resolving
`os.path.join(root_dir, item)` yields exactly the child node, so the
recursion on paths in the source becomes structural recursion on the
child's entries here. -/
mutual

/-- One iteration of the loop: a subdirectory contributes its subtree,
a file contributes the leaf marker `True` exactly when its name ends in
`.md`, and anything else contributes no binding. -/
def build_entry : String → FSEntry → Option (String × FileTree)
  | name, FSEntry.dir es => some (name, FileTree.node (build_dir es))
  | name, FSEntry.file _ =>
    if str_endswith name ".md" then some (name, FileTree.leaf) else none

/-- The whole loop over a directory's entries, in listing order. -/
def build_dir : List (String × FSEntry) → List (String × FileTree)
  | [] => []
  | (name, e) :: rest =>
    match build_entry name e with
    | some kv => kv :: build_dir rest
    | none => build_dir rest

end

/-- `MarkdownServer.build_file_tree(root_dir)`.  Returns `none` when the
Python method raises: `os.listdir` on a path that exists but is a
regular file raises `NotADirectoryError`.  A missing path returns the
empty tree (the source's early `if not os.path.exists(root_dir)`). -/
def build_file_tree (fs : FSEntry) (root_dir : String) : Option FileTree :=
  match resolvePath fs root_dir with
  | none => some (FileTree.node [])
  | some (FSEntry.dir es) => some (FileTree.node (build_dir es))
  | some (FSEntry.file _) => none

/-! ## `urllib.parse`: percent-decoding, `urlparse`, `parse_qs` -/

/-- Value of an ASCII hex digit, if any. -/
def hexDigit (c : Char) : Option Nat :=
  if '0' ≤ c ∧ c ≤ '9' then some (c.toNat - '0'.toNat)
  else if 'a' ≤ c ∧ c ≤ 'f' then some (c.toNat - 'a'.toNat + 10)
  else if 'A' ≤ c ∧ c ≤ 'F' then some (c.toNat - 'A'.toNat + 10)
  else none

/-- A character that is no escape: ASCII characters become their byte
in the `unquote_to_bytes` chunk, non-ASCII characters pass through
untouched (CPython splits them out of the ASCII chunks). -/
def tokChar (c : Char) : Sum Nat Char :=
  if c.toNat < 0x80 then Sum.inl c.toNat else Sum.inr c

/-- Scanner state of the percent-escape tokenizer: between escapes,
just after a `%`, or after a `%` and one more character. -/
inductive PctState where
  | clean
  | afterPct
  | afterPctChar (c1 : Char)
deriving Repr, DecidableEq

/-- One character step of percent-escape scanning, returning the
emitted tokens and the next state.  `%XY` with two hex digits becomes
the byte `0x10*X+Y`; a failed escape emits a literal `%` byte and
rescans the buffered characters (as `unquote_to_bytes` does by
splitting on `%` and keeping invalid items literally). -/
def pctStep (st : PctState) (c : Char) : List (Sum Nat Char) × PctState :=
  match st with
  | .clean => if c = '%' then ([], .afterPct) else ([tokChar c], .clean)
  | .afterPct => ([], .afterPctChar c)
  | .afterPctChar c1 =>
    match hexDigit c1, hexDigit c with
    | some h, some lo => ([Sum.inl (h * 16 + lo)], .clean)
    | _, _ =>
      if c1 = '%' then ([Sum.inl 0x25], .afterPctChar c)
      else if c = '%' then ([Sum.inl 0x25, tokChar c1], .afterPct)
      else ([Sum.inl 0x25, tokChar c1, tokChar c], .clean)

/-- Tokens emitted for an escape left unfinished at the end of the
string: the `%` and any buffered character stay literal. -/
def pctFlush : PctState → List (Sum Nat Char)
  | .clean => []
  | .afterPct => [Sum.inl 0x25]
  | .afterPctChar c1 =>
    Sum.inl 0x25 :: (if c1 = '%' then [Sum.inl 0x25] else [tokChar c1])

/-- The scanning loop over the characters. -/
def pctLoop (st : PctState) : List Char → List (Sum Nat Char)
  | [] => pctFlush st
  | c :: rest => (pctStep st c).1 ++ pctLoop (pctStep st c).2 rest

/-- First phase of `urllib.parse.unquote`: turn a string into a stream
of bytes (`Sum.inl`: from `%XX` escapes with valid hex digits, from an
invalid escape literal `%`, or from an ASCII character) and
passed-through non-ASCII characters (`Sum.inr`), mirroring how CPython
runs `unquote_to_bytes` over the maximal ASCII chunks of the string and
leaves non-ASCII characters untouched. -/
def pctTokenize (l : List Char) : List (Sum Nat Char) :=
  pctLoop .clean l

/-- The Unicode replacement character `U+FFFD`. -/
def replacementChar : Char := Char.ofNat 0xFFFD

/-- Incremental UTF-8 decoder state: `(need, val, lo, hi)` after a lead
byte, where `need` continuation bytes are still expected, `val` is the
value accumulated so far, and the next byte must lie in `lo..hi`
(the RFC 3629 restricted first-continuation ranges, which CPython
decoder enforces). -/
abbrev Utf8State := Nat × Nat × Nat × Nat

/-- Classify one byte as a sequence lead: ASCII decodes at once, a
valid lead opens a multi-byte sequence, anything else (a stray
continuation byte, `C0`/`C1`, `F5..FF`) is replaced. -/
def utf8Lead (b : Nat) : List Char × Option Utf8State :=
  if b < 0x80 then ([Char.ofNat b], none)
  else if 0xC2 ≤ b ∧ b ≤ 0xDF then ([], some (1, b - 0xC0, 0x80, 0xBF))
  else if b = 0xE0 then ([], some (2, 0, 0xA0, 0xBF))
  else if b = 0xED then ([], some (2, 0xD, 0x80, 0x9F))
  else if 0xE1 ≤ b ∧ b ≤ 0xEF then ([], some (2, b - 0xE0, 0x80, 0xBF))
  else if b = 0xF0 then ([], some (3, 0, 0x90, 0xBF))
  else if b = 0xF4 then ([], some (3, 4, 0x80, 0x8F))
  else if 0xF1 ≤ b ∧ b ≤ 0xF3 then ([], some (3, b - 0xF0, 0x80, 0xBF))
  else ([replacementChar], none)

/-- Feed one byte into an open sequence: a byte in range extends (or
completes) it; a byte out of range replaces the consumed prefix with
`U+FFFD` and is rescanned as a lead, exactly as `the replace error handler`
resumes at the offending byte. -/
def utf8Cont (s : Utf8State) (b : Nat) : List Char × Option Utf8State :=
  match s with
  | (need, val, lo, hi) =>
    if lo ≤ b ∧ b ≤ hi then
      if need = 1 then ([Char.ofNat (val * 0x40 + (b - 0x80))], none)
      else ([], some (need - 1, val * 0x40 + (b - 0x80), 0x80, 0xBF))
    else
      (replacementChar :: (utf8Lead b).1, (utf8Lead b).2)

/-- One token step: bytes drive the decoder, a passed-through character
closes any open sequence (with a replacement) and is emitted as is. -/
def utf8Step (st : Option Utf8State) (t : Sum Nat Char) :
    List Char × Option Utf8State :=
  match st, t with
  | none, Sum.inl b => utf8Lead b
  | some s, Sum.inl b => utf8Cont s b
  | none, Sum.inr ch => ([ch], none)
  | some _, Sum.inr ch => ([replacementChar, ch], none)

/-- A sequence left open at the end of input is replaced. -/
def utf8Flush : Option Utf8State → List Char
  | none => []
  | some _ => [replacementChar]

/-- The decoding loop over the tokens. -/
def utf8Loop (st : Option Utf8State) : List (Sum Nat Char) → List Char
  | [] => utf8Flush st
  | t :: rest => (utf8Step st t).1 ++ utf8Loop (utf8Step st t).2 rest

/-- UTF-8 decoding with `the replace error handler` over the token stream:
valid sequences decode to their code point, an invalid or truncated
sequence yields `U+FFFD` and decoding resumes at the offending token;
non-ASCII characters pass through. -/
def utf8DecodeTokens (l : List (Sum Nat Char)) : List Char :=
  utf8Loop none l

/-- `urllib.parse.unquote` with the default `encoding='utf-8'` and the
`errors='replace'` handler used by `parse_qsl` (the `surrogatepass`
variant used by `translate_path` differs only on ill-formed escapes). -/
def unquote (s : String) : String :=
  String.mk (utf8DecodeTokens (pctTokenize s.data))

/-- `str.replace('+', ' ')`, applied by `parse_qsl` before unquoting. -/
def plusToSpace (l : List Char) : List Char :=
  l.map fun c => if c = '+' then ' ' else c

/-- `urllib.parse.unquote_plus`-style processing used in `parse_qsl`. -/
def unquote_plus (s : String) : String :=
  unquote (String.mk (plusToSpace s.data))

/-- Split at the first occurrence of `sep` (`str.split(sep, 1)` when it
finds one); `none` when `sep` does not occur. -/
def splitAtFirst (sep : Char) : List Char → Option (List Char × List Char)
  | [] => none
  | c :: rest =>
    if c = sep then some ([], rest)
    else
      match splitAtFirst sep rest with
      | none => none
      | some (a, b) => some (c :: a, b)

/-- Split at the last occurrence of `sep`, if any. -/
def splitAtLast (sep : Char) (l : List Char) : Option (List Char × List Char) :=
  match splitAtFirst sep l.reverse with
  | none => none
  | some (a, b) => some (b.reverse, a.reverse)

/-- `urllib.parse.parse_qsl(query)` with the default
`keep_blank_values=False`, `separator='&'`: chunks without `=` and
chunks whose raw value is empty are dropped; names and values get
`+`-to-space and percent-decoding. -/
def parse_qsl (query : String) : List (String × String) :=
  (splitSep '&' query.data).filterMap fun nv =>
    match splitAtFirst '=' nv with
    | none => none
    | some (name, value) =>
      if value = [] then none
      else some (unquote_plus (String.mk name), unquote_plus (String.mk value))

/-- Append one parsed pair into the insertion-ordered dict of lists. -/
def addParam (acc : List (String × List String)) (k v : String) :
    List (String × List String) :=
  match acc with
  | [] => [(k, [v])]
  | (k', vs) :: rest =>
    if k' = k then (k', vs ++ [v]) :: rest else (k', vs) :: addParam rest k v

/-- `urllib.parse.parse_qs(query)`: values grouped by name, insertion
order preserved (a Python dict of lists). -/
def parse_qs (query : String) : List (String × List String) :=
  (parse_qsl query).foldl (fun acc kv => addParam acc kv.1 kv.2) []

/-- The six components of `urllib.parse.urlparse`'s result. -/
structure UrlParts where
  scheme : String
  netloc : String
  path : String
  params : String
  query : String
  fragment : String
deriving Repr, DecidableEq

/-- `urlsplit` first strips ASCII tab, CR and LF anywhere in the URL. -/
def removeUnsafeBytes (l : List Char) : List Char :=
  l.filter fun c => !(c == '\t' || c == '\r' || c == '\n')

/-- Characters allowed in a URL scheme. -/
def isSchemeChar (c : Char) : Bool :=
  c.isAlpha || c.isDigit || c == '+' || c == '-' || c == '.'

/-- The scheme-splitting step of `urlsplit`: a leading
`alpha scheme-chars* :` is removed and lowercased; otherwise the URL is
left alone. -/
def schemeSplit (l : List Char) : List Char × List Char :=
  match splitAtFirst ':' l with
  | none => ([], l)
  | some (before, after) =>
    match before with
    | [] => ([], l)
    | c0 :: _ =>
      if c0.isAlpha ∧ before.all isSchemeChar then (before.map Char.toLower, after)
      else ([], l)

/-- The netloc-splitting step of `urlsplit`: after a leading `//`, the
netloc extends to the next `/`, `?` or `#` (bracket validation of IPv6
hosts is not modelled; it can only raise, never change components). -/
def netlocSplit (l : List Char) : List Char × List Char :=
  match l with
  | '/' :: '/' :: rest =>
    (rest.takeWhile fun c => !(c == '/' || c == '?' || c == '#'),
     rest.dropWhile fun c => !(c == '/' || c == '?' || c == '#'))
  | _ => ([], l)

/-- The `;`-params split `urlparse` applies to the path returned by
`urlsplit`: the first `;` after the last `/` (or the first `;` at all
when there is no `/`) separates path from params. -/
def splitParams (l : List Char) : List Char × List Char :=
  match splitAtLast '/' l with
  | some (a, b) =>
    match splitAtFirst ';' b with
    | some (b1, b2) => (a ++ '/' :: b1, b2)
    | none => (l, [])
  | none =>
    match splitAtFirst ';' l with
    | some (a, b) => (a, b)
    | none => (l, [])

/-- `urllib.parse.urlsplit` with `allow_fragments=True`: strip unsafe
bytes, then split scheme, netloc, fragment and query, in that order
(the `params` field stays empty). -/
def urlsplit (url : String) : UrlParts :=
  let l0 := removeUnsafeBytes url.data
  let (scheme, l1) := schemeSplit l0
  let (netloc, l2) := netlocSplit l1
  let (l3, fragment) :=
    match splitAtFirst '#' l2 with
    | some (a, b) => (a, b)
    | none => (l2, [])
  let (l4, query) :=
    match splitAtFirst '?' l3 with
    | some (a, b) => (a, b)
    | none => (l3, [])
  { scheme := String.mk scheme, netloc := String.mk netloc,
    path := String.mk l4, params := "",
    query := String.mk query, fragment := String.mk fragment }

/-- `urllib.parse.urlparse`: `urlsplit`, then split `;`-params off the
path. -/
def urlparse (url : String) : UrlParts :=
  let u := urlsplit url
  let (path, params) := splitParams u.path.data
  { u with path := String.mk path, params := String.mk params }

/-- `urllib.parse.urlunsplit`, used to build the `Location` target of a
directory redirect. -/
def urlunsplit (scheme netloc path query fragment : String) : String :=
  let url :=
    if netloc ≠ "" ∨ path.data.take 2 = ['/', '/'] then
      "//" ++ netloc ++ (if path ≠ "" ∧ path.data.head? ≠ some '/' then "/" ++ path else path)
    else path
  let url := if scheme ≠ "" then scheme ++ ":" ++ url else url
  let url := if query ≠ "" then url ++ "?" ++ query else url
  if fragment ≠ "" then url ++ "#" ++ fragment else url

/-! ## `json.dumps` for the file tree -/

/-- Lowercase hex digit. -/
def hexDigitChar (n : Nat) : Char :=
  if n < 10 then Char.ofNat ('0'.toNat + n) else Char.ofNat ('a'.toNat + n - 10)

/-- Four lowercase hex digits. -/
def hex4 (n : Nat) : List Char :=
  [hexDigitChar (n / 4096 % 16), hexDigitChar (n / 256 % 16),
   hexDigitChar (n / 16 % 16), hexDigitChar (n % 16)]

/-- How `json.dumps` (default `ensure_ascii=True`) renders one character
inside a string literal. -/
def jsonEscapeChar (c : Char) : List Char :=
  if c = '"' then ['\\', '"']
  else if c = '\\' then ['\\', '\\']
  else if c = '\n' then ['\\', 'n']
  else if c = '\r' then ['\\', 'r']
  else if c = '\t' then ['\\', 't']
  else if c = Char.ofNat 0x08 then ['\\', 'b']
  else if c = Char.ofNat 0x0c then ['\\', 'f']
  else if c.toNat < 0x20 then '\\' :: 'u' :: hex4 c.toNat
  else if c.toNat < 0x7f then [c]
  else if c.toNat < 0x10000 then '\\' :: 'u' :: hex4 c.toNat
  else
    ('\\' :: 'u' :: hex4 (0xD800 + (c.toNat - 0x10000) / 0x400)) ++
      ('\\' :: 'u' :: hex4 (0xDC00 + (c.toNat - 0x10000) % 0x400))

/-- A JSON string literal for `s`. -/
def jsonString (s : String) : String :=
  "\"" ++ String.mk (s.data.map jsonEscapeChar).flatten ++ "\""

mutual

/-- `json.dumps` of the file tree with the default separators
`', '` and `': '`: `True` becomes `true`, dicts keep insertion order. -/
def FileTree.toJson : FileTree → String
  | .leaf => "true"
  | .node es => "\x7b" ++ jsonEntries es ++ "\x7d"

/-- The comma-joined members of a JSON object. -/
def jsonEntries : List (String × FileTree) → String
  | [] => ""
  | [(k, v)] => jsonString k ++ ": " ++ FileTree.toJson v
  | (k, v) :: rest => jsonString k ++ ": " ++ FileTree.toJson v ++ ", " ++ jsonEntries rest

end

/-! ## The HTTP layer: responses, `send_error`, static serving, `do_GET` -/

/-- An HTTP response as observed by the client: status code, the header
lines sent (in order, without the time-dependent `Server` and `Date`
headers that `send_response` adds), and the body text. -/
structure Response where
  status : Nat
  headers : List (String × String)
  body : String
deriving Repr, DecidableEq

/-- Outcome of handling one GET request: either a complete response, or
an unhandled Python exception raised after the status line and header
block were already sent. -/
inductive Outcome where
  | complete (r : Response)
  | crashed (status : Nat) (headers : List (String × String))
deriving Repr, DecidableEq

/-- `MarkdownServer.end_headers`: every header block this handler sends
is closed through this override, which appends
`Access-Control-Allow-Origin: *` and then delegates to the superclass. -/
def end_headers (hs : List (String × String)) : List (String × String) :=
  hs ++ [("Access-Control-Allow-Origin", "*")]

/-- `html.escape(s, quote=False)`. -/
def htmlEscape (s : String) : String :=
  String.mk ((s.data.map fun c =>
    if c = '&' then "&amp;".data
    else if c = '<' then "&lt;".data
    else if c = '>' then "&gt;".data
    else [c]).flatten)

/-- The body produced by `BaseHTTPRequestHandler.send_error` from its
`DEFAULT_ERROR_MESSAGE` template. -/
def error_message_body (code : Nat) (message explain : String) : String :=
  "<!DOCTYPE HTML>\n<html lang=\"en\">\n    <head>\n        <meta charset=\"utf-8\">\n" ++
    "        <title>Error response</title>\n    </head>\n    <body>\n" ++
    "        <h1>Error response</h1>\n        <p>Error code: " ++ toString code ++
    "</p>\n        <p>Message: " ++ htmlEscape message ++
    ".</p>\n        <p>Error code explanation: " ++ toString code ++ " - " ++
    htmlEscape explain ++ ".</p>\n    </body>\n</html>\n"

/-- `BaseHTTPRequestHandler.send_error(code, message)`: a complete error
response with `Connection: close`, the error content type, and the
templated HTML body (`explain` comes from the handler's response
table). -/
def send_error (code : Nat) (message explain : String) : Outcome :=
  let body := error_message_body code message explain
  Outcome.complete
    { status := code,
      headers := end_headers
        [("Connection", "close"), ("Content-Type", "text/html;charset=utf-8"),
         ("Content-Length", toString body.utf8ByteSize)],
      body := body }

/-- The generic 404 the server produces: `send_error(404, "File not
found")`, whose explanation string for code 404 is fixed by the
handler's response table. -/
def notFound : Outcome :=
  send_error 404 "File not found" "Nothing matches the given URI"

/-- ASCII whitespace stripped by `str.rstrip`. -/
def isPySpace (c : Char) : Bool :=
  c == ' ' || c == '\t' || c == '\n' || c == '\r' ||
    c == Char.ofNat 0x0b || c == Char.ofNat 0x0c

/-- `str.rstrip()` over characters. -/
def rstrip (l : List Char) : List Char :=
  (l.reverse.dropWhile isPySpace).reverse

/-- The net effect of `posixpath.normpath` followed by
`translate_path`'s word filter (which discards empty, `.` and `..`
words): a stack walk in which `..` pops the last kept segment and is
discarded at the top. The result can never escape the serving root. -/
def normSegs (segs : List (List Char)) : List String :=
  segs.foldl
    (fun acc seg =>
      if seg = [] ∨ seg = ['.'] then acc
      else if seg = ['.', '.'] then acc.dropLast
      else acc ++ [String.mk seg])
    []

/-- `SimpleHTTPRequestHandler.translate_path`, reduced to the path
segments it denotes below the working directory: strip the query and
fragment again, remember whether the (right-stripped) path ended in a
slash, unquote, and normalize.  (The `errors='surrogatepass'` unquote
variant differs from ours only on ill-formed escapes.) -/
def translate_path (path : String) : List String × Bool :=
  let p1 := match splitAtFirst '?' path.data with | some (a, _) => a | none => path.data
  let p2 := match splitAtFirst '#' p1 with | some (a, _) => a | none => p1
  let trailing := (rstrip p2).getLast? == some '/'
  let unq := (unquote (String.mk p2)).data
  (normSegs (splitSep '/' unq), trailing)

/-- Look up a normalized segment list (no `.`/`..`/empty segments)
below a node. -/
def lookupSegs (fs : FSEntry) : List String → Option FSEntry
  | [] => some fs
  | seg :: rest =>
    match fs with
    | .file _ => none
    | .dir es =>
      match es.lookup seg with
      | some child => lookupSegs child rest
      | none => none

/-- ASCII lowercasing, as `str.lower` on the strings occurring here. -/
def toLowerStr (s : String) : String :=
  String.mk (s.data.map Char.toLower)

/-- The extension `posixpath.splitext` splits off a basename: the part
from the last dot, except that a basename consisting only of leading
dots has no extension. -/
def splitext_ext (name : List Char) : List Char :=
  match splitAtLast '.' name with
  | some (a, b) => if a.all (· = '.') then [] else '.' :: b
  | none => []

/-- `SimpleHTTPRequestHandler.guess_type` on the served file's
basename.  The `mimetypes` table is restricted to the extensions
exercised by this development; every unlisted extension maps to the
default `application/octet-stream`. -/
def guess_type (name : String) : String :=
  let ext := toLowerStr (String.mk (splitext_ext name.data))
  if ext = ".html" ∨ ext = ".htm" then "text/html"
  else if ext = ".txt" then "text/plain"
  else if ext = ".json" then "application/json"
  else if ext = ".js" ∨ ext = ".mjs" then "text/javascript"
  else if ext = ".css" then "text/css"
  else if ext = ".png" then "image/png"
  else "application/octet-stream"

/-- UTF-8 encoding of one character. -/
def utf8Encode (c : Char) : List Nat :=
  let n := c.toNat
  if n < 0x80 then [n]
  else if n < 0x800 then [0xC0 + n / 0x40, 0x80 + n % 0x40]
  else if n < 0x10000 then [0xE0 + n / 0x1000, 0x80 + n / 0x40 % 0x40, 0x80 + n % 0x40]
  else [0xF0 + n / 0x40000, 0x80 + n / 0x1000 % 0x40, 0x80 + n / 0x40 % 0x40, 0x80 + n % 0x40]

/-- Uppercase hex digit. -/
def hexDigitUpper (n : Nat) : Char :=
  if n < 10 then Char.ofNat ('0'.toNat + n) else Char.ofNat ('A'.toNat + n - 10)

/-- `urllib.parse.quote` with the default `safe='/'`: alphanumerics,
`_.-~` and `/` stay; every other character is percent-encoded from its
UTF-8 bytes. -/
def urlquote (s : String) : String :=
  String.mk ((s.data.map fun c =>
    if c.isAlpha || c.isDigit || c == '_' || c == '.' || c == '-' || c == '~' || c == '/'
    then [c]
    else ((utf8Encode c).map fun b => ['%', hexDigitUpper (b / 16), hexDigitUpper (b % 16)]).flatten).flatten)

/-- Serve one regular file, as the tail of
`SimpleHTTPRequestHandler.send_head` does (the time-dependent
`Last-Modified` header is not modelled); `Content-Length` is the byte
length of the file. -/
def serve_file (name content : String) : Outcome :=
  Outcome.complete
    { status := 200,
      headers := end_headers
        [("Content-type", guess_type name),
         ("Content-Length", toString content.utf8ByteSize)],
      body := content }

/-- `SimpleHTTPRequestHandler.list_directory`: a 200 HTML listing of
the entries sorted by lowercased name, directories shown and linked
with a trailing slash (the model has no symlinks, so no `@` markers,
and no permission errors). -/
def list_directory (reqPath : String) (es : List (String × FSEntry)) : Outcome :=
  let sorted := (es.map Prod.fst).mergeSort fun a b => decide (toLowerStr a ≤ toLowerStr b)
  let items := sorted.map fun name =>
    let isdir : Bool := match es.lookup name with | some (FSEntry.dir _) => true | _ => false
    let displayname := if isdir then name ++ "/" else name
    "<li><a href=\"" ++ urlquote displayname ++ "\">" ++ htmlEscape displayname ++ "</a></li>"
  let displaypath := htmlEscape (unquote reqPath)
  let title := "Directory listing for " ++ displaypath
  let body := String.intercalate "\n"
    (["<!DOCTYPE HTML>", "<html lang=\"en\">", "<head>",
      "<meta charset=\"utf-8\">", "<title>" ++ title ++ "</title>", "</head>",
      "<body>", "<h1>" ++ title ++ "</h1>", "<hr>", "<ul>"] ++ items ++
     ["</ul>", "<hr>", "</body>", "</html>"])
  Outcome.complete
    { status := 200,
      headers := end_headers
        [("Content-type", "text/html; charset=utf-8"),
         ("Content-Length", toString body.utf8ByteSize)],
      body := body }

/-- The static-file fallback `SimpleHTTPRequestHandler.do_GET`
(`send_head` + body): translate the path and look it up; a directory
without a trailing slash redirects with 301, a directory with one
serves `index.html`/`index.htm` if present as a file and a listing
otherwise; a file path with a trailing slash is a 404; a missing path
is a 404 (the `OSError` branch of `open` gives the same
`send_error(404, "File not found")`).

First, the 301 redirect `send_head` sends for a directory reached
without a trailing slash: `Location` is the split request-target with a
slash appended to its path component. -/
def moved_permanently (reqPath : String) : Outcome :=
  let parts := urlsplit reqPath
  let new_url := urlunsplit parts.scheme parts.netloc (parts.path ++ "/")
    parts.query parts.fragment
  Outcome.complete
    { status := 301,
      headers := end_headers [("Location", new_url), ("Content-Length", "0")],
      body := "" }

def static_serve (fs : FSEntry) (reqPath : String) : Outcome :=
  let (segs, trailing) := translate_path reqPath
  match lookupSegs fs segs with
  | none => notFound
  | some (FSEntry.dir es) =>
    if ¬ str_endswith (urlsplit reqPath).path "/" then moved_permanently reqPath
    else
      match es.lookup "index.html" with
      | some (FSEntry.file c) => serve_file "index.html" c
      | _ =>
        match es.lookup "index.htm" with
        | some (FSEntry.file c) => serve_file "index.htm" c
        | _ => list_directory reqPath es
  | some (FSEntry.file c) =>
    if trailing then notFound else serve_file (segs.getLastD "") c

/-- `MarkdownServer.do_GET` on one request target (`self.path`), over
the filesystem rooted at the server's working directory:

* `/api/files`: 200 JSON tree of `samples` (the headers go out before
  `build_file_tree` runs, so a `samples` that is a regular file crashes
  the request after the headers);
* `/api/file`: with a `path` query parameter, `samples`-joined path
  existing and ending in `.md`, serve the text (a directory passing
  both checks crashes in `open` after the headers); otherwise the
  generic 404;
* `/`: rewritten to `/index.html` and served statically;
* everything else: the static fallback. -/
def do_GET (fs : FSEntry) (reqPath : String) : Outcome :=
  let parsed_path := urlparse reqPath
  if parsed_path.path = "/api/files" then
    let headers := end_headers [("Content-Type", "application/json")]
    match build_file_tree fs "samples" with
    | some tree =>
      Outcome.complete { status := 200, headers := headers, body := FileTree.toJson tree }
    | none => Outcome.crashed 200 headers
  else if parsed_path.path = "/api/file" then
    let query := parse_qs parsed_path.query
    match query.lookup "path" with
    | some (v0 :: _) =>
      let file_path := os_path_join "samples" v0
      if os_path_exists fs file_path && str_endswith file_path ".md" then
        let headers := end_headers [("Content-Type", "text/plain; charset=utf-8")]
        match resolvePath fs file_path with
        | some (FSEntry.file content) =>
          Outcome.complete { status := 200, headers := headers, body := read_text content }
        | _ => Outcome.crashed 200 headers
      else notFound
    | _ => notFound
  else if parsed_path.path = "/" then static_serve fs "/index.html"
  else static_serve fs reqPath

/-! ## Depth measures (for the termination claim) -/

mutual

/-- Depth of a filesystem node: files are depth 0, a directory is one
more than its deepest child. -/
def FSEntry.depth : FSEntry → Nat
  | .file _ => 0
  | .dir es => entriesDepthFS es + 1

/-- Deepest child of an entry list. -/
def entriesDepthFS : List (String × FSEntry) → Nat
  | [] => 0
  | (_, e) :: rest => max (FSEntry.depth e) (entriesDepthFS rest)

end

mutual

/-- Depth of a built file tree: leaves are depth 0, a node is one more
than its deepest child. -/
def FileTree.depth : FileTree → Nat
  | .leaf => 0
  | .node es => entriesDepthFT es + 1

/-- Deepest child of a file-tree entry list. -/
def entriesDepthFT : List (String × FileTree) → Nat
  | [] => 0
  | (_, t) :: rest => max (FileTree.depth t) (entriesDepthFT rest)

end

/-! ## Concrete fixtures -/

/-- A working directory holding the spec's example `samples` tree
(files `a.md` and `b.txt`, subdirectory `sub/` with `c.md`), a file
`secret.md` outside the `samples` root, and the front-end asset
`index.html`. -/
def sampleFS : FSEntry :=
  .dir [("samples", .dir [("a.md", .file "# A"), ("b.txt", .file "b"),
           ("sub", .dir [("c.md", .file "# C")])]),
        ("secret.md", .file "TOP SECRET"),
        ("index.html", .file "<h1>hi</h1>")]

/-- A working directory whose `samples` root contains a subdirectory
named `d.md`: its name passes the `.md` suffix check while
`os.path.exists` is also true. -/
def dirMdFS : FSEntry :=
  .dir [("samples", .dir [("d.md", .dir [])])]

/-- A working directory whose `samples/notes.md` contains a CRLF line
ending. -/
def crlfFS : FSEntry :=
  .dir [("samples", .dir [("notes.md", .file "# Hello\r\nWorld")])]

/-- A working directory with no `samples` entry at all. -/
def emptyFS : FSEntry := .dir [("index.html", .file "<h1>hi</h1>")]

/-! ## General lemmas -/

/-- Every header block closed by the handler contains the CORS
allow-all header. -/
theorem cors_mem_end_headers (hs : List (String × String)) :
    ("Access-Control-Allow-Origin", "*") ∈ end_headers hs :=
  List.mem_append_right hs (List.mem_singleton.mpr rfl)

/-! ## C2 -/

/-- C2: the claim "no client-supplied relative path causes the server to
return the contents of a file outside the root" fails on the code: for
the filesystem `sampleFS`, whose `samples` root does not contain
`secret.md`, the request `/api/file?path=../secret.md` is answered 200
with the contents of the `secret.md` that lives outside `samples`
(the third conjunct shows the `samples` tree, which has no such file). -/
theorem c2_traversal_escape :
    do_GET sampleFS "/api/file?path=../secret.md" =
      Outcome.complete
        { status := 200,
          headers := [("Content-Type", "text/plain; charset=utf-8"),
                      ("Access-Control-Allow-Origin", "*")],
          body := "TOP SECRET" } ∧
    resolvePath sampleFS "secret.md" = some (FSEntry.file "TOP SECRET") ∧
    build_file_tree sampleFS "samples" =
      some (FileTree.node [("a.md", FileTree.leaf),
        ("sub", FileTree.node [("c.md", FileTree.leaf)])]) :=
  ⟨by rfl, by rfl, by rfl⟩

/-! ## C5 -/

/-- C5: `build_file_tree` on a missing root returns the empty mapping
rather than an error, and `/api/files` then responds 200 with the empty
JSON object. -/
theorem c5_missing_root (fs : FSEntry) (h : resolvePath fs "samples" = none) :
    build_file_tree fs "samples" = some (FileTree.node []) ∧
    do_GET fs "/api/files" =
      Outcome.complete
        { status := 200,
          headers := [("Content-Type", "application/json"),
                      ("Access-Control-Allow-Origin", "*")],
          body := "\x7b\x7d" } := by
  have hb : build_file_tree fs "samples" = some (FileTree.node []) := by
    unfold build_file_tree; rw [h]
  refine ⟨hb, ?_⟩
  have hstep : do_GET fs "/api/files" =
      match build_file_tree fs "samples" with
      | some tree =>
        Outcome.complete
          { status := 200,
            headers := end_headers [("Content-Type", "application/json")],
            body := FileTree.toJson tree }
      | none => Outcome.crashed 200 (end_headers [("Content-Type", "application/json")]) := rfl
  rw [hstep, hb]
  rfl

/-- C5 witness: a concrete working directory with no `samples` entry. -/
theorem c5_missing_root_witness :
    resolvePath emptyFS "samples" = none ∧
    build_file_tree emptyFS "samples" = some (FileTree.node []) ∧
    do_GET emptyFS "/api/files" =
      Outcome.complete
        { status := 200,
          headers := [("Content-Type", "application/json"),
                      ("Access-Control-Allow-Origin", "*")],
          body := "\x7b\x7d" } :=
  ⟨rfl, (c5_missing_root emptyFS rfl).1, (c5_missing_root emptyFS rfl).2⟩

/-! ## C8 -/

/-- C8: a GET for `/` is rewritten to serve `/index.html`, so when the
working directory holds a regular file `index.html` the response body is
exactly that file's content. -/
theorem c8_root_index (es : List (String × FSEntry)) (content : String)
    (h : es.lookup "index.html" = some (FSEntry.file content)) :
    do_GET (FSEntry.dir es) "/" = static_serve (FSEntry.dir es) "/index.html" ∧
    do_GET (FSEntry.dir es) "/" =
      Outcome.complete
        { status := 200,
          headers := [("Content-type", "text/html"),
                      ("Content-Length", toString content.utf8ByteSize),
                      ("Access-Control-Allow-Origin", "*")],
          body := content } := by
  refine ⟨by rfl, ?_⟩
  have hseg : lookupSegs (FSEntry.dir es) ["index.html"] = some (FSEntry.file content) := by
    show (match es.lookup "index.html" with
          | some child => lookupSegs child []
          | none => none) = some (FSEntry.file content)
    rw [h]
    rfl
  have hstep : do_GET (FSEntry.dir es) "/" =
      match lookupSegs (FSEntry.dir es) ["index.html"] with
      | none => notFound
      | some (FSEntry.dir _) =>
        Outcome.complete
          { status := 301,
            headers := end_headers [("Location", "/index.html/"), ("Content-Length", "0")],
            body := "" }
      | some (FSEntry.file c) => serve_file "index.html" c := by rfl
  rw [hstep, hseg]
  rfl

/-- C8 witness: the fixture filesystem with its concrete `index.html`. -/
theorem c8_root_index_witness :
    ([("samples", FSEntry.dir [("a.md", FSEntry.file "# A"), ("b.txt", FSEntry.file "b"),
        ("sub", FSEntry.dir [("c.md", FSEntry.file "# C")])]),
      ("secret.md", FSEntry.file "TOP SECRET"),
      ("index.html", FSEntry.file "<h1>hi</h1>")].lookup "index.html" =
        some (FSEntry.file "<h1>hi</h1>")) ∧
    do_GET sampleFS "/" =
      Outcome.complete
        { status := 200,
          headers := [("Content-type", "text/html"), ("Content-Length", "11"),
                      ("Access-Control-Allow-Origin", "*")],
          body := "<h1>hi</h1>" } :=
  ⟨by rfl,
    (c8_root_index
      [("samples", FSEntry.dir [("a.md", FSEntry.file "# A"), ("b.txt", FSEntry.file "b"),
          ("sub", FSEntry.dir [("c.md", FSEntry.file "# C")])]),
        ("secret.md", FSEntry.file "TOP SECRET"),
        ("index.html", FSEntry.file "<h1>hi</h1>")] "<h1>hi</h1>" (by rfl)).2⟩

/-! ## C3 and C9: the shape of `build_dir` -/

/-- A key absent from an association list looks up to nothing. -/
theorem lookup_eq_none_of_not_mem_names {α : Type} (name : String)
    (l : List (String × α)) (h : name ∉ l.map Prod.fst) : l.lookup name = none := by
  induction l with
  | nil => rfl
  | cons p rest ih =>
    obtain ⟨k, v⟩ := p
    simp only [List.map_cons, List.mem_cons, not_or] at h
    have hbeq : (name == k) = false := by simp [h.1]
    simp [List.lookup, hbeq, ih h.2]

/-- Every key of the built tree is a key of the directory. -/
theorem build_dir_name_mem (es : List (String × FSEntry)) (name : String) (t : FileTree)
    (h : (name, t) ∈ build_dir es) : name ∈ es.map Prod.fst := by
  induction es with
  | nil => simp [build_dir] at h
  | cons p rest ih =>
    obtain ⟨n, e⟩ := p
    simp only [List.map_cons, List.mem_cons]
    cases e with
    | dir sub =>
      simp only [build_dir, build_entry, List.mem_cons, Prod.mk.injEq] at h
      rcases h with ⟨h1, -⟩ | h
      · exact Or.inl h1
      · exact Or.inr (ih h)
    | file c =>
      by_cases hmd : str_endswith n ".md" = true
      · simp only [build_dir, build_entry, hmd, if_true, List.mem_cons, Prod.mk.injEq] at h
        rcases h with ⟨h1, -⟩ | h
        · exact Or.inl h1
        · exact Or.inr (ih h)
      · simp only [build_dir, build_entry, hmd] at h
        exact Or.inr (ih (by simpa using h))

/-- What the built tree binds a name to, given distinct entry names:
the recursively built subtree for a subdirectory, the leaf marker for a
`.md` file, nothing otherwise. -/
theorem build_dir_lookup (es : List (String × FSEntry)) (name : String)
    (hnd : (es.map Prod.fst).Nodup) :
    (build_dir es).lookup name =
      match es.lookup name with
      | some (FSEntry.dir sub) => some (FileTree.node (build_dir sub))
      | some (FSEntry.file _) =>
        if str_endswith name ".md" = true then some FileTree.leaf else none
      | none => none := by
  induction es with
  | nil => rfl
  | cons p rest ih =>
    obtain ⟨n, e⟩ := p
    simp only [List.map_cons, List.nodup_cons] at hnd
    obtain ⟨hn, hnd2⟩ := hnd
    cases e with
    | dir sub =>
      by_cases hname : name = n
      · subst hname
        simp [build_dir, build_entry, List.lookup]
      · have hbeq : (name == n) = false := by simp [hname]
        simp [build_dir, build_entry, List.lookup, hbeq, ih hnd2]
    | file c =>
      by_cases hmd : str_endswith n ".md" = true
      · by_cases hname : name = n
        · subst hname
          simp [build_dir, build_entry, List.lookup, hmd]
        · have hbeq : (name == n) = false := by simp [hname]
          simp [build_dir, build_entry, List.lookup, hbeq, hmd, ih hnd2]
      · by_cases hname : name = n
        · subst hname
          have hnone : (build_dir rest).lookup name = none := by
            apply lookup_eq_none_of_not_mem_names
            intro hmem
            simp only [List.mem_map] at hmem
            obtain ⟨⟨k, t⟩, hkt, hk⟩ := hmem
            subst hk
            exact hn (build_dir_name_mem rest _ t hkt)
          simp [build_dir, build_entry, List.lookup, hmd, hnone]
        · have hbeq : (name == n) = false := by simp [hname]
          simp [build_dir, build_entry, List.lookup, hbeq, hmd, ih hnd2]

/-- C3: for every existing directory (distinct entry names, as a real
directory has), `build_file_tree` returns the mapping that binds, for
each entry of the directory: a subdirectory name to its recursively
built subtree (even when empty), the name of a file ending in `.md` to
the leaf marker, and any other entry to nothing. -/
theorem c3_build_tree_characterization (fs : FSEntry) (root : String)
    (es : List (String × FSEntry))
    (hres : resolvePath fs root = some (FSEntry.dir es))
    (hnd : (es.map Prod.fst).Nodup) :
    build_file_tree fs root = some (FileTree.node (build_dir es)) ∧
    ∀ name : String,
      (build_dir es).lookup name =
        match es.lookup name with
        | some (FSEntry.dir sub) => some (FileTree.node (build_dir sub))
        | some (FSEntry.file _) =>
          if str_endswith name ".md" = true then some FileTree.leaf else none
        | none => none := by
  constructor
  · unfold build_file_tree
    rw [hres]
  · exact fun name => build_dir_lookup es name hnd

/-- C3 witness: the spec example, a directory with files `a.md`,
`b.txt` and subdirectory `sub/` containing `c.md`, builds exactly
the tree with `a.md` bound to the leaf and `sub` to its subtree, and
`b.txt` is unbound. -/
theorem c3_build_tree_characterization_witness :
    resolvePath sampleFS "samples" =
      some (FSEntry.dir [("a.md", FSEntry.file "# A"), ("b.txt", FSEntry.file "b"),
        ("sub", FSEntry.dir [("c.md", FSEntry.file "# C")])]) ∧
    build_file_tree sampleFS "samples" =
      some (FileTree.node [("a.md", FileTree.leaf),
        ("sub", FileTree.node [("c.md", FileTree.leaf)])]) ∧
    (build_dir [("a.md", FSEntry.file "# A"), ("b.txt", FSEntry.file "b"),
        ("sub", FSEntry.dir [("c.md", FSEntry.file "# C")])]).lookup "b.txt" = none := by
  refine ⟨by rfl, ?_, ?_⟩
  · have h := (c3_build_tree_characterization sampleFS "samples"
      [("a.md", FSEntry.file "# A"), ("b.txt", FSEntry.file "b"),
        ("sub", FSEntry.dir [("c.md", FSEntry.file "# C")])] (by rfl) (by decide)).1
    exact h.trans (by rfl)
  · have h := (c3_build_tree_characterization sampleFS "samples"
      [("a.md", FSEntry.file "# A"), ("b.txt", FSEntry.file "b"),
        ("sub", FSEntry.dir [("c.md", FSEntry.file "# C")])] (by rfl) (by decide)).2 "b.txt"
    exact h.trans (by rfl)

/-- C9: in a built tree the leaf marker appears only for entries that
are regular files (whose names end in `.md`); a subdirectory — whatever
its name, also one ending in `.md` — is always bound to a nested
mapping, because the `isdir` test comes before the extension test. -/
theorem c9_leaf_only_files (es : List (String × FSEntry)) (name : String) :
    ((name, FileTree.leaf) ∈ build_dir es →
      str_endswith name ".md" = true ∧ ∃ c, (name, FSEntry.file c) ∈ es) ∧
    (∀ sub, (name, FSEntry.dir sub) ∈ es →
      (name, FileTree.node (build_dir sub)) ∈ build_dir es) := by
  induction es with
  | nil => exact ⟨fun h => absurd h (by simp [build_dir]), fun sub h => absurd h (by simp)⟩
  | cons p rest ih =>
    obtain ⟨n, e⟩ := p
    constructor
    · intro h
      cases e with
      | dir sub =>
        simp only [build_dir, build_entry, List.mem_cons, Prod.mk.injEq] at h
        rcases h with ⟨-, hleaf⟩ | h
        · exact absurd hleaf (by simp)
        · obtain ⟨hmd, c, hc⟩ := ih.1 h
          exact ⟨hmd, c, List.mem_cons_of_mem _ hc⟩
      | file c0 =>
        by_cases hmd : str_endswith n ".md" = true
        · simp only [build_dir, build_entry, hmd, if_true, List.mem_cons, Prod.mk.injEq] at h
          rcases h with ⟨rfl, -⟩ | h
          · exact ⟨hmd, c0, List.mem_cons_self _ _⟩
          · obtain ⟨hmd2, c, hc⟩ := ih.1 h
            exact ⟨hmd2, c, List.mem_cons_of_mem _ hc⟩
        · simp only [build_dir, build_entry, hmd] at h
          obtain ⟨hmd2, c, hc⟩ := ih.1 (by simpa using h)
          exact ⟨hmd2, c, List.mem_cons_of_mem _ hc⟩
    · intro sub hsub
      rcases List.mem_cons.mp hsub with heq | hmem
      · injection heq with h1 h2
        subst h1
        subst h2
        simp [build_dir, build_entry]
      · have hmem2 := ih.2 sub hmem
        cases e with
        | dir sub2 => simp only [build_dir, build_entry]; exact List.mem_cons_of_mem _ hmem2
        | file c0 =>
          by_cases hmd : str_endswith n ".md" = true
          · simp only [build_dir, build_entry, hmd, if_true]
            exact List.mem_cons_of_mem _ hmem2
          · simpa [build_dir, build_entry, hmd] using hmem2

/-- C9 witness: a subdirectory named `d.md` is bound to a nested
(empty) mapping, not to the leaf marker. -/
theorem c9_leaf_only_files_witness :
    ("d.md", FSEntry.dir ([] : List (String × FSEntry))) ∈
      [("d.md", FSEntry.dir ([] : List (String × FSEntry)))] ∧
    ("d.md", FileTree.node (build_dir [])) ∈
      build_dir [("d.md", FSEntry.dir ([] : List (String × FSEntry)))] :=
  ⟨List.mem_singleton.mpr rfl,
    (c9_leaf_only_files [("d.md", FSEntry.dir [])] "d.md").2 []
      (List.mem_singleton.mpr rfl)⟩

/-! ## C7: recursion bounded by tree depth -/

/-- A successful lookup returns the value of some entry. -/
theorem lookup_some_mem {α : Type} (es : List (String × α)) (k : String) (v : α)
    (h : es.lookup k = some v) : ∃ kk, (kk, v) ∈ es := by
  induction es with
  | nil => exact absurd h (by simp)
  | cons p rest ih =>
    obtain ⟨k1, v1⟩ := p
    by_cases hk : (k == k1) = true
    · simp only [List.lookup, hk, Option.some.injEq] at h
      subst h
      exact ⟨k1, List.mem_cons_self _ _⟩
    · simp only [List.lookup, Bool.not_eq_true] at hk
      simp only [List.lookup, hk] at h
      obtain ⟨kk, hm⟩ := ih h
      exact ⟨kk, List.mem_cons_of_mem _ hm⟩

/-- A child is at most as deep as the deepest child. -/
theorem depth_child_le (es : List (String × FSEntry)) (k : String) (e : FSEntry)
    (h : (k, e) ∈ es) : FSEntry.depth e ≤ entriesDepthFS es := by
  induction es with
  | nil => exact absurd h (by simp)
  | cons p rest ih =>
    rcases List.mem_cons.mp h with heq | hmem
    · obtain ⟨k1, e1⟩ := p
      injection heq with h1 h2
      subst h2
      simp [entriesDepthFS, le_max_iff]
    · obtain ⟨k1, e1⟩ := p
      simp only [entriesDepthFS, le_max_iff]
      exact Or.inr (ih hmem)

/-- Walking never leaves the tree below the starting root, so the node
reached is no deeper than any bound on the start and the ancestors on
the stack. -/
theorem walkFS_depth (d : Nat) (segs : List (List Char)) :
    ∀ (stack : List FSEntry) (cur : FSEntry),
      (∀ x ∈ cur :: stack, FSEntry.depth x ≤ d) →
      ∀ e, walkFS stack cur segs = some e → FSEntry.depth e ≤ d := by
  induction segs with
  | nil =>
    intro stack cur hinv e h
    simp only [walkFS, Option.some.injEq] at h
    subst h
    exact hinv cur (List.mem_cons_self _ _)
  | cons seg rest ih =>
    intro stack cur hinv e h
    cases cur with
    | file c => simp [walkFS] at h
    | dir es =>
      simp only [walkFS] at h
      split at h
      · exact ih stack (FSEntry.dir es) hinv e h
      · split at h
        · rename_i hstack
          split at h
          · exact ih [] (FSEntry.dir es)
              (fun x hx => hinv x (by
                rcases List.mem_cons.mp hx with hx1 | hx2
                · exact hx1 ▸ List.mem_cons_self _ _
                · exact absurd hx2 (by simp))) e h
          · rename_i parent t
            exact ih t parent
              (fun x hx => hinv x (by
                rcases List.mem_cons.mp hx with hx1 | hx2
                · exact hx1 ▸ List.mem_cons_of_mem _ (List.mem_cons_self _ _)
                · exact List.mem_cons_of_mem _ (List.mem_cons_of_mem _ hx2))) e h
        · split at h
          · rename_i child hchild
            refine ih (FSEntry.dir es :: stack) child ?_ e h
            intro x hx
            rcases List.mem_cons.mp hx with hx1 | hx2
            · subst hx1
              obtain ⟨kk, hm⟩ := lookup_some_mem es _ x hchild
              calc FSEntry.depth x ≤ entriesDepthFS es := depth_child_le es kk x hm
                _ ≤ FSEntry.depth (FSEntry.dir es) := by simp [FSEntry.depth]
                _ ≤ d := hinv _ (List.mem_cons_self _ _)
            · exact hinv x hx2
          · exact absurd h (by simp)

/-- The built tree is never deeper than the directory it was built
from. -/
theorem build_dir_depth : ∀ es : List (String × FSEntry),
    entriesDepthFT (build_dir es) ≤ entriesDepthFS es
  | [] => by simp [build_dir, entriesDepthFT, entriesDepthFS]
  | (n, FSEntry.dir sub) :: rest => by
    have h1 := build_dir_depth sub
    have h2 := build_dir_depth rest
    simp only [build_dir, build_entry, entriesDepthFT, entriesDepthFS,
      FileTree.depth, FSEntry.depth]
    omega
  | (n, FSEntry.file c) :: rest => by
    have h2 := build_dir_depth rest
    by_cases hmd : str_endswith n ".md" = true
    · simp only [build_dir, build_entry, hmd, if_true, entriesDepthFT, entriesDepthFS,
        FileTree.depth, FSEntry.depth]
      omega
    · have hb : build_dir ((n, FSEntry.file c) :: rest) = build_dir rest := by
        simp [build_dir, build_entry, hmd]
      rw [hb]
      simp only [entriesDepthFS, FSEntry.depth]
      omega

/-- C7: `build_file_tree` is total — it terminates on every (finite,
acyclic) filesystem tree of the model, and its recursion is bounded by
the depth of the tree: the built tree is never deeper than one more
than the filesystem below the working directory.  (Symbolic links, and
hence symlink cycles, do not exist in the model; the non-termination
caveat concerns only those.) -/
theorem c7_depth_bound (fs : FSEntry) (root : String) (t : FileTree)
    (h : build_file_tree fs root = some t) :
    FileTree.depth t ≤ FSEntry.depth fs + 1 := by
  unfold build_file_tree at h
  cases hres : resolvePath fs root with
  | none =>
    rw [hres] at h
    cases h
    simp [FileTree.depth, entriesDepthFT]
  | some e =>
    rw [hres] at h
    cases e with
    | file c => cases h
    | dir es =>
      cases h
      have hdep : FSEntry.depth (FSEntry.dir es) ≤ FSEntry.depth fs := by
        unfold resolvePath at hres
        split at hres
        · cases hres
        · exact walkFS_depth (FSEntry.depth fs) _ [] fs
            (by intro x hx; rcases List.mem_cons.mp hx with h1 | h2
                · exact h1 ▸ le_refl _
                · exact absurd h2 (by simp))
            (FSEntry.dir es) hres
      have hbd := build_dir_depth es
      simp only [FSEntry.depth] at hdep
      simp only [FileTree.depth]
      omega

/-- C7 witness: the sample tree, whose build has depth 2 against a
filesystem of depth 3. -/
theorem c7_depth_bound_witness :
    build_file_tree sampleFS "samples" =
      some (FileTree.node [("a.md", FileTree.leaf),
        ("sub", FileTree.node [("c.md", FileTree.leaf)])]) ∧
    FileTree.depth (FileTree.node [("a.md", FileTree.leaf),
        ("sub", FileTree.node [("c.md", FileTree.leaf)])]) ≤ FSEntry.depth sampleFS + 1 :=
  ⟨by rfl, c7_depth_bound sampleFS "samples" _ (by rfl)⟩

/-! ## C6: the CORS header -/

/-- Any served file carries the CORS header. -/
theorem serve_file_cors (name content : String) (r : Response)
    (h : serve_file name content = Outcome.complete r) :
    ("Access-Control-Allow-Origin", "*") ∈ r.headers := by
  unfold serve_file at h
  cases h
  exact cors_mem_end_headers _

/-- Any error response carries the CORS header (the override applies to
`send_error` too, since it closes its header block via `end_headers`). -/
theorem send_error_cors (code : Nat) (m e : String) (r : Response)
    (h : send_error code m e = Outcome.complete r) :
    ("Access-Control-Allow-Origin", "*") ∈ r.headers := by
  unfold send_error at h
  cases h
  exact cors_mem_end_headers _

/-- The generic 404 carries the CORS header. -/
theorem notFound_cors (r : Response) (h : notFound = Outcome.complete r) :
    ("Access-Control-Allow-Origin", "*") ∈ r.headers := by
  unfold notFound at h
  exact send_error_cors _ _ _ r h

/-- A directory listing carries the CORS header. -/
theorem list_directory_cors (p : String) (es : List (String × FSEntry)) (r : Response)
    (h : list_directory p es = Outcome.complete r) :
    ("Access-Control-Allow-Origin", "*") ∈ r.headers := by
  unfold list_directory at h
  cases h
  exact cors_mem_end_headers _

/-- The directory redirect carries the CORS header. -/
theorem moved_permanently_cors (p : String) (r : Response)
    (h : moved_permanently p = Outcome.complete r) :
    ("Access-Control-Allow-Origin", "*") ∈ r.headers := by
  unfold moved_permanently at h
  cases h
  exact cors_mem_end_headers _

/-- Every complete response of the static fallback carries the CORS
header. -/
theorem static_serve_cors (fs : FSEntry) (p : String) (r : Response)
    (h : static_serve fs p = Outcome.complete r) :
    ("Access-Control-Allow-Origin", "*") ∈ r.headers := by
  unfold static_serve at h
  repeat' split at h
  all_goals cases h
  all_goals exact cors_mem_end_headers _

/-- C6: every complete HTTP response the handler produces — the JSON
tree, a served Markdown file, every 404, and every static-file,
redirect or listing response — carries `Access-Control-Allow-Origin: *`,
because every branch closes its header block through the overridden
`end_headers`. -/
theorem c6_cors_all_responses (fs : FSEntry) (req : String) (r : Response)
    (h : do_GET fs req = Outcome.complete r) :
    ("Access-Control-Allow-Origin", "*") ∈ r.headers := by
  simp only [do_GET] at h
  repeat' split at h
  all_goals first
    | exact (by cases h; exact cors_mem_end_headers _)
    | exact (by cases h)
    | exact notFound_cors r h
    | exact static_serve_cors _ _ r h

/-- C6 witness: the concrete `/api/files` response of the sample
filesystem contains the CORS header. -/
theorem c6_cors_all_responses_witness :
    do_GET sampleFS "/api/files" =
      Outcome.complete
        { status := 200,
          headers := [("Content-Type", "application/json"),
                      ("Access-Control-Allow-Origin", "*")],
          body := "\x7b\"a.md\": true, \"sub\": \x7b\"c.md\": true\x7d\x7d" } ∧
    ("Access-Control-Allow-Origin", "*") ∈
      [("Content-Type", "application/json"), ("Access-Control-Allow-Origin", "*")] :=
  ⟨by rfl,
    c6_cors_all_responses sampleFS "/api/files"
      { status := 200,
        headers := [("Content-Type", "application/json"),
                    ("Access-Control-Allow-Origin", "*")],
        body := "\x7b\"a.md\": true, \"sub\": \x7b\"c.md\": true\x7d\x7d" } (by rfl)⟩

/-! ## C1 and C4: the `/api/file` branch -/

/-- The handler on a request whose parsed path is `/api/file`, written
as a function of the parsed query. -/
theorem do_GET_api_file_branch (fs : FSEntry) (req : String)
    (hpath : (urlparse req).path = "/api/file") :
    do_GET fs req =
      match (parse_qs (urlparse req).query).lookup "path" with
      | some (v0 :: _) =>
        if os_path_exists fs (os_path_join "samples" v0) &&
            str_endswith (os_path_join "samples" v0) ".md" then
          match resolvePath fs (os_path_join "samples" v0) with
          | some (FSEntry.file content) =>
            Outcome.complete
              { status := 200,
                headers := end_headers [("Content-Type", "text/plain; charset=utf-8")],
                body := read_text content }
          | _ => Outcome.crashed 200 (end_headers [("Content-Type", "text/plain; charset=utf-8")])
        else notFound
      | _ => notFound := by
  have hne : ¬ (urlparse req).path = "/api/files" := by
    rw [hpath]; decide
  simp only [do_GET, hne, if_false, hpath, if_true]
  rw [if_neg (by decide)]

/-- C1 (amended): on a request routed to `/api/file`, the handler
responds 200 with the (newline-translated) text of the file if and only
if the `path` parameter is present, the path joined onto the root
resolves to a regular file, and the joined path ends in `.md`; when the
parameter is present and the joined path resolves to a *directory*
whose name passes the `.md` check, the handler sends the 200 status
line and headers and then dies on `open` (an unhandled exception), not
a 404; in every remaining case (parameter absent, path nonexistent, or
extension check failing) it sends the single generic 404, with no
distinction between the causes. -/
theorem c1_api_file_amended (fs : FSEntry) (req : String)
    (hpath : (urlparse req).path = "/api/file") :
    (∀ p vs content,
      (parse_qs (urlparse req).query).lookup "path" = some (p :: vs) →
      resolvePath fs (os_path_join "samples" p) = some (FSEntry.file content) →
      str_endswith (os_path_join "samples" p) ".md" = true →
      do_GET fs req =
        Outcome.complete
          { status := 200,
            headers := [("Content-Type", "text/plain; charset=utf-8"),
                        ("Access-Control-Allow-Origin", "*")],
            body := read_text content }) ∧
    (∀ p vs sub,
      (parse_qs (urlparse req).query).lookup "path" = some (p :: vs) →
      resolvePath fs (os_path_join "samples" p) = some (FSEntry.dir sub) →
      str_endswith (os_path_join "samples" p) ".md" = true →
      do_GET fs req =
        Outcome.crashed 200
          [("Content-Type", "text/plain; charset=utf-8"),
           ("Access-Control-Allow-Origin", "*")]) ∧
    ((parse_qs (urlparse req).query).lookup "path" = none → do_GET fs req = notFound) ∧
    (∀ p vs,
      (parse_qs (urlparse req).query).lookup "path" = some (p :: vs) →
      (os_path_exists fs (os_path_join "samples" p) &&
        str_endswith (os_path_join "samples" p) ".md") = false →
      do_GET fs req = notFound) := by
  have hb := do_GET_api_file_branch fs req hpath
  refine ⟨?_, ?_, ?_, ?_⟩
  · intro p vs content hlk hres hmd
    rw [hb, hlk]
    have hcond : (os_path_exists fs (os_path_join "samples" p) &&
        str_endswith (os_path_join "samples" p) ".md") = true := by
      simp [os_path_exists, hres, hmd]
    simp only [hcond, if_true, hres]
    rfl
  · intro p vs sub hlk hres hmd
    rw [hb, hlk]
    have hcond : (os_path_exists fs (os_path_join "samples" p) &&
        str_endswith (os_path_join "samples" p) ".md") = true := by
      simp [os_path_exists, hres, hmd]
    simp only [hcond, if_true, hres]
    rfl
  · intro hlk
    rw [hb, hlk]
  · intro p vs hlk hcond
    rw [hb, hlk]
    simp [hcond]

/-- C1 counterexample: with a directory `samples/d.md`, the request
`/api/file?path=d.md` passes both checks (`os.path.exists` is true for
directories) and then crashes in `open` after the 200 status line and
headers went out — the handler neither returns a 200 with file text nor
the generic 404 the claim promises for every other case. -/
theorem c1_counterexample :
    do_GET dirMdFS "/api/file?path=d.md" =
      Outcome.crashed 200
        [("Content-Type", "text/plain; charset=utf-8"),
         ("Access-Control-Allow-Origin", "*")] ∧
    do_GET dirMdFS "/api/file?path=d.md" ≠ notFound ∧
    os_path_exists dirMdFS (os_path_join "samples" "d.md") = true ∧
    str_endswith (os_path_join "samples" "d.md") ".md" = true :=
  ⟨by rfl, by decide, by rfl, by rfl⟩

/-- C1 witness: the successful read of `samples/a.md`. -/
theorem c1_api_file_amended_witness :
    (urlparse "/api/file?path=a.md").path = "/api/file" ∧
    do_GET sampleFS "/api/file?path=a.md" =
      Outcome.complete
        { status := 200,
          headers := [("Content-Type", "text/plain; charset=utf-8"),
                      ("Access-Control-Allow-Origin", "*")],
          body := "# A" } := by
  refine ⟨by rfl, ?_⟩
  have h := (c1_api_file_amended sampleFS "/api/file?path=a.md" (by rfl)).1
    "a.md" [] "# A" (by rfl) (by rfl) (by rfl)
  exact h

/-- Universal-newline translation is the identity on text without
carriage returns. -/
theorem translateNewlines_no_cr : ∀ l : List Char, '\r' ∉ l → translateNewlines l = l := by
  intro l
  induction l with
  | nil => intro h; rfl
  | cons c rest ih =>
    intro h
    simp only [List.mem_cons, not_or] at h
    obtain ⟨h1, h2⟩ := h
    rw [translateNewlines.eq_def]
    split <;> simp_all [ih]

/-- C4 (amended): a successful `/api/file` read returns the file text
decoded as UTF-8 *with universal-newline translation* (each CRLF and
each lone CR becomes LF, because the source opens the file in text mode
with `newline=None`), served as `text/plain; charset=utf-8`; for files
containing no carriage return the body is exactly the raw decoded
contents. -/
theorem c4_read_body (fs : FSEntry) (req : String) (p : String) (vs : List String)
    (content : String)
    (hpath : (urlparse req).path = "/api/file")
    (hlk : (parse_qs (urlparse req).query).lookup "path" = some (p :: vs))
    (hres : resolvePath fs (os_path_join "samples" p) = some (FSEntry.file content))
    (hmd : str_endswith (os_path_join "samples" p) ".md" = true) :
    do_GET fs req =
      Outcome.complete
        { status := 200,
          headers := [("Content-Type", "text/plain; charset=utf-8"),
                      ("Access-Control-Allow-Origin", "*")],
          body := read_text content } ∧
    read_text content = String.mk (translateNewlines content.data) ∧
    ('\r' ∉ content.data → read_text content = content) := by
  refine ⟨?_, rfl, ?_⟩
  · rw [do_GET_api_file_branch fs req hpath, hlk]
    have hcond : (os_path_exists fs (os_path_join "samples" p) &&
        str_endswith (os_path_join "samples" p) ".md") = true := by
      simp [os_path_exists, hres, hmd]
    simp only [hcond, if_true, hres]
    rfl
  · intro hcr
    unfold read_text
    rw [translateNewlines_no_cr content.data hcr]

/-- C4 counterexample: `samples/notes.md` containing `"# Hello\r\nWorld"`
is served as `"# Hello\nWorld"` — not the raw contents, contradicting
"no transformation". -/
theorem c4_counterexample :
    resolvePath crlfFS "samples/notes.md" =
      some (FSEntry.file "# Hello\r\nWorld") ∧
    do_GET crlfFS "/api/file?path=notes.md" =
      Outcome.complete
        { status := 200,
          headers := [("Content-Type", "text/plain; charset=utf-8"),
                      ("Access-Control-Allow-Origin", "*")],
          body := "# Hello\nWorld" } ∧
    ("# Hello\nWorld" : String) ≠ "# Hello\r\nWorld" :=
  ⟨by rfl, by rfl, by decide⟩

/-- C4 witness: a CR-free file is returned verbatim. -/
theorem c4_read_body_witness :
    do_GET sampleFS "/api/file?path=a.md" =
      Outcome.complete
        { status := 200,
          headers := [("Content-Type", "text/plain; charset=utf-8"),
                      ("Access-Control-Allow-Origin", "*")],
          body := read_text "# A" } ∧
    read_text "# A" = "# A" := by
  have h := c4_read_body sampleFS "/api/file?path=a.md" "a.md" [] "# A"
    (by rfl) (by rfl) (by rfl) (by rfl)
  exact ⟨h.1, h.2.2 (by decide)⟩

/-! ## C10: blank and repeated query parameters -/

/-- `splitAtFirst` finds nothing when the separator is absent. -/
theorem splitAtFirst_of_not_mem (sep : Char) (l : List Char) (h : sep ∉ l) :
    splitAtFirst sep l = none := by
  induction l with
  | nil => rfl
  | cons c rest ih =>
    simp only [List.mem_cons, not_or] at h
    have hc : ¬ c = sep := fun hh => h.1 hh.symm
    simp [splitAtFirst, hc, ih h.2]

/-- `splitAtFirst` splits at the first separator occurrence. -/
theorem splitAtFirst_append (sep : Char) (a b : List Char) (h : sep ∉ a) :
    splitAtFirst sep (a ++ sep :: b) = some (a, b) := by
  induction a with
  | nil => simp [splitAtFirst]
  | cons c rest ih =>
    simp only [List.mem_cons, not_or] at h
    have hc : ¬ c = sep := fun hh => h.1 hh.symm
    simp [splitAtFirst, hc, ih h.2]

/-- `splitSep` always returns at least one group. -/
theorem splitSep_ne_nil (sep : Char) (l : List Char) : splitSep sep l ≠ [] := by
  cases l with
  | nil => simp [splitSep]
  | cons c rest =>
    simp only [splitSep]
    cases hs : splitSep sep rest with
    | nil => simp
    | cons g gs =>
      by_cases hc : c = sep <;> simp [hc]

/-- A separator-free string is one group. -/
theorem splitSep_of_not_mem (sep : Char) (l : List Char) (h : sep ∉ l) :
    splitSep sep l = [l] := by
  induction l with
  | nil => rfl
  | cons c rest ih =>
    simp only [List.mem_cons, not_or] at h
    have hc : ¬ c = sep := fun hh => h.1 hh.symm
    simp [splitSep, ih h.2, hc]

/-- Splitting at the first separator peels off the first group. -/
theorem splitSep_append (sep : Char) (a b : List Char) (h : sep ∉ a) :
    splitSep sep (a ++ sep :: b) = a :: splitSep sep b := by
  induction a with
  | nil =>
    simp only [List.nil_append, splitSep]
    cases hs : splitSep sep b with
    | nil => exact absurd hs (splitSep_ne_nil sep b)
    | cons g gs => simp
  | cons c rest ih =>
    simp only [List.mem_cons, not_or] at h
    have hc : ¬ c = sep := fun hh => h.1 hh.symm
    simp [splitSep, ih h.2, hc]

/-- A URL starting with `/` has no scheme. -/
theorem schemeSplit_slash (l : List Char) : schemeSplit ('/' :: l) = ([], '/' :: l) := by
  have hfirst : splitAtFirst ':' ('/' :: l) =
      match splitAtFirst ':' l with
      | none => none
      | some (a, b) => some ('/' :: a, b) := by
    rw [splitAtFirst]
    simp
  unfold schemeSplit
  rw [hfirst]
  cases hs : splitAtFirst ':' l with
  | none => rfl
  | some p =>
    obtain ⟨a, b⟩ := p
    simp [isSchemeChar]

/-- `urlparse` of `/api/file?` followed by a hash-free, control-free
query string: the path is `/api/file` and the query is exactly the
appended string. -/
theorem urlparse_api_file (q : List Char)
    (hq : ∀ c ∈ q, c ≠ '#' ∧ c ≠ '\t' ∧ c ≠ '\r' ∧ c ≠ '\n') :
    urlparse (String.mk ("/api/file?".data ++ q)) =
      { scheme := "", netloc := "", path := "/api/file", params := "",
        query := String.mk q, fragment := "" } := by
  have hB : List.filter (fun c => !(c == '\t' || c == '\r' || c == '\n')) q = q :=
    List.filter_eq_self.mpr (fun c hc => by
      obtain ⟨-, h2, h3, h4⟩ := hq c hc
      simp [h2, h3, h4])
  have h0 : removeUnsafeBytes
      ('/' :: 'a' :: 'p' :: 'i' :: '/' :: 'f' :: 'i' :: 'l' :: 'e' :: '?' :: q) =
      '/' :: 'a' :: 'p' :: 'i' :: '/' :: 'f' :: 'i' :: 'l' :: 'e' :: '?' :: q := by
    unfold removeUnsafeBytes
    rw [show ('/' :: 'a' :: 'p' :: 'i' :: '/' :: 'f' :: 'i' :: 'l' :: 'e' :: '?' :: q) =
      ['/', 'a', 'p', 'i', '/', 'f', 'i', 'l', 'e', '?'] ++ q from rfl]
    rw [List.filter_append, hB]
    rfl
  have hnet : netlocSplit
      ('/' :: 'a' :: 'p' :: 'i' :: '/' :: 'f' :: 'i' :: 'l' :: 'e' :: '?' :: q) =
      ([], '/' :: 'a' :: 'p' :: 'i' :: '/' :: 'f' :: 'i' :: 'l' :: 'e' :: '?' :: q) := rfl
  have hfrag : splitAtFirst '#'
      ('/' :: 'a' :: 'p' :: 'i' :: '/' :: 'f' :: 'i' :: 'l' :: 'e' :: '?' :: q) = none := by
    apply splitAtFirst_of_not_mem
    intro hmem
    simp only [List.mem_cons] at hmem
    rcases hmem with h|h|h|h|h|h|h|h|h|h|h <;>
      first
      | exact absurd h (by decide)
      | exact absurd rfl (hq _ h).1
  have hquery : splitAtFirst '?'
      ('/' :: 'a' :: 'p' :: 'i' :: '/' :: 'f' :: 'i' :: 'l' :: 'e' :: '?' :: q) =
      some (['/', 'a', 'p', 'i', '/', 'f', 'i', 'l', 'e'], q) := by
    have h := splitAtFirst_append '?' ['/', 'a', 'p', 'i', '/', 'f', 'i', 'l', 'e'] q
      (by decide)
    simpa using h
  have hparams : splitParams ['/', 'a', 'p', 'i', '/', 'f', 'i', 'l', 'e'] =
      (['/', 'a', 'p', 'i', '/', 'f', 'i', 'l', 'e'], []) := rfl
  show urlparse (String.mk
    ('/' :: 'a' :: 'p' :: 'i' :: '/' :: 'f' :: 'i' :: 'l' :: 'e' :: '?' :: q)) = _
  unfold urlparse urlsplit
  simp only [h0, schemeSplit_slash, hnet, hfrag, hquery, hparams]

/-- A string with empty character data is the empty string. -/
theorem data_eq_nil (v : String) (h : v.data = []) : v = "" :=
  congrArg String.mk h

/-- `parse_qsl` of a single `path=<v>` field with a nonblank,
`&`-free value. -/
theorem parse_qsl_single (v : List Char) (hv : '&' ∉ v) (hne : v ≠ []) :
    parse_qsl (String.mk ('p' :: 'a' :: 't' :: 'h' :: '=' :: v)) =
      [("path", unquote_plus (String.mk v))] := by
  have hsp : splitSep '&' ('p' :: 'a' :: 't' :: 'h' :: '=' :: v) =
      ['p' :: 'a' :: 't' :: 'h' :: '=' :: v] := by
    apply splitSep_of_not_mem
    intro hmem
    simp only [List.mem_cons] at hmem
    rcases hmem with h|h|h|h|h|h <;>
      first
      | exact absurd h (by decide)
      | exact hv h
  have hsplit : splitAtFirst '=' ('p' :: 'a' :: 't' :: 'h' :: '=' :: v) =
      some (['p', 'a', 't', 'h'], v) := by
    have h := splitAtFirst_append '=' ['p', 'a', 't', 'h'] v (by decide)
    simpa using h
  unfold parse_qsl
  simp [hsp, hsplit, hne]
  rfl

/-- `parse_qsl` of `path=<v1>&path=<v2>` with nonblank, `&`-free
values: both fields survive, in order. -/
theorem parse_qsl_double (v1 v2 : List Char) (h1 : '&' ∉ v1) (h2 : '&' ∉ v2)
    (hne1 : v1 ≠ []) (hne2 : v2 ≠ []) :
    parse_qsl (String.mk (('p' :: 'a' :: 't' :: 'h' :: '=' :: v1) ++
        '&' :: ('p' :: 'a' :: 't' :: 'h' :: '=' :: v2))) =
      [("path", unquote_plus (String.mk v1)), ("path", unquote_plus (String.mk v2))] := by
  have hA : '&' ∉ ('p' :: 'a' :: 't' :: 'h' :: '=' :: v1) := by
    intro hmem
    simp only [List.mem_cons] at hmem
    rcases hmem with h|h|h|h|h|h <;>
      first
      | exact absurd h (by decide)
      | exact h1 h
  have hsp : splitSep '&' (('p' :: 'a' :: 't' :: 'h' :: '=' :: v1) ++
      '&' :: ('p' :: 'a' :: 't' :: 'h' :: '=' :: v2)) =
      ('p' :: 'a' :: 't' :: 'h' :: '=' :: v1) ::
        splitSep '&' ('p' :: 'a' :: 't' :: 'h' :: '=' :: v2) :=
    splitSep_append '&' _ _ hA
  have hsp2 : splitSep '&' ('p' :: 'a' :: 't' :: 'h' :: '=' :: v2) =
      ['p' :: 'a' :: 't' :: 'h' :: '=' :: v2] := by
    apply splitSep_of_not_mem
    intro hmem
    simp only [List.mem_cons] at hmem
    rcases hmem with h|h|h|h|h|h <;>
      first
      | exact absurd h (by decide)
      | exact h2 h
  have hsplit1 : splitAtFirst '=' ('p' :: 'a' :: 't' :: 'h' :: '=' :: v1) =
      some (['p', 'a', 't', 'h'], v1) := by
    have h := splitAtFirst_append '=' ['p', 'a', 't', 'h'] v1 (by decide)
    simpa using h
  have hsplit2 : splitAtFirst '=' ('p' :: 'a' :: 't' :: 'h' :: '=' :: v2) =
      some (['p', 'a', 't', 'h'], v2) := by
    have h := splitAtFirst_append '=' ['p', 'a', 't', 'h'] v2 (by decide)
    simpa using h
  unfold parse_qsl
  rw [show (String.mk (('p' :: 'a' :: 't' :: 'h' :: '=' :: v1) ++
      '&' :: ('p' :: 'a' :: 't' :: 'h' :: '=' :: v2))).data =
      ('p' :: 'a' :: 't' :: 'h' :: '=' :: v1) ++
        '&' :: ('p' :: 'a' :: 't' :: 'h' :: '=' :: v2) from rfl, hsp, hsp2]
  simp [hsplit1, hsplit2, hne1, hne2]
  rfl

/-- C10: a `path` parameter with an empty value is dropped by
`parse_qs` (its default `keep_blank_values=False`), so `?path=` is
treated exactly like an absent parameter and yields the generic 404;
and when several (nonblank) `path` parameters are supplied, the
response is determined by the first value alone — the request behaves
exactly like one carrying only the first parameter. -/
theorem c10_blank_and_first (fs : FSEntry) (v1 v2 : String)
    (h1 : ∀ c ∈ v1.data, c ≠ '&' ∧ c ≠ '#' ∧ c ≠ '\t' ∧ c ≠ '\r' ∧ c ≠ '\n')
    (h2 : ∀ c ∈ v2.data, c ≠ '&' ∧ c ≠ '#' ∧ c ≠ '\t' ∧ c ≠ '\r' ∧ c ≠ '\n')
    (hne1 : v1 ≠ "") (hne2 : v2 ≠ "") :
    do_GET fs "/api/file?path=" = do_GET fs "/api/file" ∧
    do_GET fs "/api/file" = notFound ∧
    do_GET fs ("/api/file?path=" ++ v1 ++ "&path=" ++ v2) =
      do_GET fs ("/api/file?path=" ++ v1) := by
  refine ⟨by rfl, by rfl, ?_⟩
  have hd1 : v1.data ≠ [] := fun h => hne1 (data_eq_nil v1 h)
  have hd2 : v2.data ≠ [] := fun h => hne2 (data_eq_nil v2 h)
  have ha1 : '&' ∉ v1.data := fun h => (h1 _ h).1 rfl
  have ha2 : '&' ∉ v2.data := fun h => (h2 _ h).1 rfl
  have hstr2 : ("/api/file?path=" ++ v1 ++ "&path=" ++ v2) =
      String.mk ("/api/file?".data ++ (('p' :: 'a' :: 't' :: 'h' :: '=' :: v1.data) ++
        '&' :: ('p' :: 'a' :: 't' :: 'h' :: '=' :: v2.data))) := by
    obtain ⟨l1⟩ := v1
    obtain ⟨l2⟩ := v2
    show String.mk ((("/api/file?path=".data ++ l1) ++ "&path=".data) ++ l2) = _
    apply congrArg String.mk
    simp only [List.append_assoc, List.cons_append, List.nil_append]
  have hstr1 : ("/api/file?path=" ++ v1) =
      String.mk ("/api/file?".data ++ ('p' :: 'a' :: 't' :: 'h' :: '=' :: v1.data)) := by
    obtain ⟨l1⟩ := v1
    show String.mk ("/api/file?path=".data ++ l1) = _
    apply congrArg String.mk
    simp only [List.append_assoc, List.cons_append, List.nil_append]
  have hq0 : ∀ c ∈ (('p' :: 'a' :: 't' :: 'h' :: '=' :: v1.data) ++
      '&' :: ('p' :: 'a' :: 't' :: 'h' :: '=' :: v2.data)),
      c ≠ '#' ∧ c ≠ '\t' ∧ c ≠ '\r' ∧ c ≠ '\n' := by
    intro c hc
    rcases List.mem_append.mp hc with hA | hB
    · simp only [List.mem_cons] at hA
      rcases hA with rfl|rfl|rfl|rfl|rfl|h <;>
        first
        | decide
        | exact (h1 c h).2
    · simp only [List.mem_cons] at hB
      rcases hB with rfl|rfl|rfl|rfl|rfl|rfl|h <;>
        first
        | decide
        | exact (h2 c h).2
  have hq1 : ∀ c ∈ ('p' :: 'a' :: 't' :: 'h' :: '=' :: v1.data),
      c ≠ '#' ∧ c ≠ '\t' ∧ c ≠ '\r' ∧ c ≠ '\n' := by
    intro c hc
    simp only [List.mem_cons] at hc
    rcases hc with rfl|rfl|rfl|rfl|rfl|h <;>
      first
      | decide
      | exact (h1 c h).2
  have hu2 := urlparse_api_file _ hq0
  have hu1 := urlparse_api_file _ hq1
  rw [hstr2, hstr1, do_GET_api_file_branch fs _ (by rw [hu2]),
    do_GET_api_file_branch fs _ (by rw [hu1])]
  have hpq2 : parse_qs (String.mk (('p' :: 'a' :: 't' :: 'h' :: '=' :: v1.data) ++
      '&' :: ('p' :: 'a' :: 't' :: 'h' :: '=' :: v2.data))) =
      [("path", [unquote_plus (String.mk v1.data), unquote_plus (String.mk v2.data)])] := by
    unfold parse_qs
    rw [parse_qsl_double v1.data v2.data ha1 ha2 hd1 hd2]
    simp [addParam]
  have hpq1 : parse_qs (String.mk ('p' :: 'a' :: 't' :: 'h' :: '=' :: v1.data)) =
      [("path", [unquote_plus (String.mk v1.data)])] := by
    unfold parse_qs
    rw [parse_qsl_single v1.data ha1 hd1]
    simp [addParam]
  simp only [hu2, hu1, hpq2, hpq1]
  simp [List.lookup]

/-- C10 witness: a blank `path` is a 404 exactly like an absent one,
and the pair `path=a.md&path=b.txt` behaves like `path=a.md` alone. -/
theorem c10_blank_and_first_witness :
    do_GET sampleFS "/api/file?path=" = do_GET sampleFS "/api/file" ∧
    do_GET sampleFS "/api/file" = notFound ∧
    do_GET sampleFS "/api/file?path=a.md&path=b.txt" =
      do_GET sampleFS "/api/file?path=a.md" := by
  have h := c10_blank_and_first sampleFS "a.md" "b.txt"
    (by decide) (by decide) (by decide) (by decide)
  exact ⟨h.1, h.2.1, h.2.2⟩

end Moremaid
